import Mathlib

/-!
# imgsrv: the raw-pixel path and the Paint / plotHandle / run handshake

A shallow embedding of `paint.go`.

* Part 1 embeds `renderImage` together with the pieces of Go's standard
  `image` and `image/png` packages it calls (`image.Rect`, `image.NewNRGBA`,
  `Bounds`, and the size check at the head of `png.Encode`).
* Part 2 embeds the goroutines that talk over the channels of `server`
  (`Paint`, `plotHandle`, `server.run`, `dataHandler`) as a labelled
  transition system: one event per channel communication.

Go's `int` is taken to be 64 bits wide and the largest allocation the runtime
accepts to be `2^48` bytes.  Running out of memory below that length is not
modelled.
-/

set_option linter.unusedVariables false

namespace Imgsrv

/-! ## Part 1: images and `renderImage` -/

/-- The `[][]uint8` argument of `Paint`: a list of rows of bytes. -/
abbrev Pixels := List (List (Fin 256))

/-- Go `image.Point`. -/
structure Point where
  X : Int
  Y : Int
deriving DecidableEq, Repr

/-- Go `image.Rectangle`. -/
structure Rectangle where
  Min : Point
  Max : Point
deriving DecidableEq, Repr

/-- Go `image.Rect`: the rectangle with the given corners, coordinates swapped
where needed so that `Min` is the smaller corner. -/
def Rect (x0 y0 x1 y1 : Int) : Rectangle :=
  let (x0, x1) := if x0 > x1 then (x1, x0) else (x0, x1)
  let (y0, y1) := if y0 > y1 then (y1, y0) else (y0, y1)
  { Min := { X := x0, Y := y0 }, Max := { X := x1, Y := y1 } }

/-- Go `Rectangle.Dx`: the width. -/
def Rectangle.Dx (r : Rectangle) : Int := r.Max.X - r.Min.X

/-- Go `Rectangle.Dy`: the height. -/
def Rectangle.Dy (r : Rectangle) : Int := r.Max.Y - r.Min.Y

/-- Go `*image.NRGBA`: the pixel buffer (4 bytes per pixel), the stride and the
bounds. -/
structure NRGBA where
  Pix : List Nat
  Stride : Int
  Rect : Rectangle
deriving DecidableEq, Repr

/-- Go `(*NRGBA).Bounds`. -/
def NRGBA.Bounds (p : NRGBA) : Rectangle := p.Rect

/-- The ways in which `renderImage` ends without returning. -/
inductive Abort where
  /-- The run-time panic of `pixels[0]` on a grid with no rows. -/
  | indexOutOfRange
  /-- The panic of `image.NewNRGBA` on a rectangle whose buffer length does not fit an `int`. -/
  | hugeDimensions
  /-- The run-time panic `makeslice: len out of range` of `make([]uint8, n)`. -/
  | lenOutOfRange
  /-- The `log.Fatalf("error encoding image to PNG: ...")` exit. -/
  | fatalEncode
deriving DecidableEq, Repr

/-- Go `image.mul3NonNeg`: the product `x*y*z`, or `-1` when an argument is
negative or the product overflows a 64-bit `int`. -/
def mul3NonNeg (x y z : Int) : Int :=
  if x < 0 ∨ y < 0 ∨ z < 0 then -1
  else if x * y ≥ 2 ^ 64 then -1
  else if x * y * z ≥ 2 ^ 64 then -1
  else if x * y * z ≥ 2 ^ 63 then -1
  else x * y * z

/-- The largest allocation the Go runtime accepts (`maxAlloc`), on a 64-bit
platform with 48 address bits. -/
def maxAlloc : Int := 2 ^ 48

/-- Go `image.NewNRGBA`: a zeroed buffer `make([]uint8, 4 * Dx * Dy)`; panics
when that length is negative or overflows, and `make` panics when the length
is above `maxAlloc`. -/
def NewNRGBA (r : Rectangle) : Except Abort NRGBA :=
  let totalLength := mul3NonNeg 4 r.Dx r.Dy
  if totalLength < 0 then .error .hugeDimensions
  else if totalLength > maxAlloc then .error .lenOutOfRange
  else .ok { Pix := List.replicate totalLength.toNat 0, Stride := 4 * r.Dx, Rect := r }

/-- The size check at the head of Go `png.Encode`: zero, negative and
`≥ 2^32` widths or heights are rejected with a format error. -/
def pngSizeOk (m : NRGBA) : Bool :=
  let mw := m.Bounds.Dx
  let mh := m.Bounds.Dy
  !(decide (mw ≤ 0) || decide (mh ≤ 0) || decide (mw ≥ 2 ^ 32) || decide (mh ≥ 2 ^ 32))

/-- The `wimage` struct: the JSON fields `title` and `image`, and the image. -/
structure wimage where
  Title : String
  Image : String
  img : NRGBA
deriving DecidableEq, Repr

/-- The function `renderImage`.  The bytes the PNG encoder writes for an image
of accepted size, base64-encoded, are given by the parameter `pngBase64`
(the codec is an external collaborator).  As in the source, `title` is not
used, the grid is read only for its two lengths, and the returned struct
literal sets `img` and `Image` only, so `Title` keeps its zero value. -/
def renderImage (pngBase64 : NRGBA → String) (title : String) (pixels : Pixels) :
    Except Abort wimage :=
  match pixels with
  | [] => .error .indexOutOfRange
  | row0 :: _ =>
    match NewNRGBA (Rect 0 0 row0.length pixels.length) with
    | .error a => .error a
    | .ok img =>
      if pngSizeOk img then
        .ok { Title := "", Image := pngBase64 img, img := img }
      else .error .fatalEncode

/-! ## Part 2: the goroutines and their channels

All channels made by `newServer` are unbuffered, so a send and the matching
receive are one event.  The channel `srv.plots`, the value
`plot(srv.n, srv.in, srv.out)` sent on it and a sender on `srv.done` are not
declared in the file; the capacity of `srv.plots` and the value sent are
parameters, and a send on `srv.done` is an event of the environment.  The
payload of `srv.plots` is taken to be `wplot`, the message the page script
reads. -/

/-- The `wplot` struct: the JSON field `plot`. -/
structure wplot where
  Plot : String
deriving DecidableEq, Repr

/-- One `dataHandler` goroutine: the frames it has received from `srv.plots`
(each one passed to `websocket.JSON.Send`), in order, and the number of
`error sending data` lines it has logged. -/
structure Viewer where
  taken : List wplot
  logged : Nat
deriving DecidableEq, Repr

/-- One iteration of the loop of `dataHandler`: `data` has been received from
`srv.plots`, it is sent on the connection, and when the send fails
(`sendOk = false`) the error is logged.  There is no `return` or `break`. -/
def dataHandlerIter (vw : Viewer) (data : wplot) (sendOk : Bool) : Viewer :=
  { taken := vw.taken ++ [data]
    logged := if sendOk then vw.logged else vw.logged + 1 }

/-- The loop `for data := range srv.plots` of `dataHandler`, run on the values
the channel yields to this handler, each paired with the outcome of its
`websocket.JSON.Send`. -/
def dataHandler (vw : Viewer) : List (wplot × Bool) → Viewer
  | [] => vw
  | (data, sendOk) :: rest => dataHandler (dataHandlerIter vw data sendOk) rest

/-- The channel `srv.plots` and the `dataHandler` goroutines ranging over it:
the values buffered in the channel and one entry per connected viewer. -/
structure Plots where
  buf : List wplot
  viewers : List Viewer
deriving DecidableEq, Repr

/-- Viewer `v` receives `data` and runs one iteration of its loop; `none` when
there is no viewer `v`. -/
def deliver : List Viewer → Nat → wplot → Bool → Option (List Viewer)
  | [], _, _, _ => none
  | vw :: vs, 0, data, sendOk => some (dataHandlerIter vw data sendOk :: vs)
  | vw :: vs, v + 1, data, sendOk => (deliver vs v data sendOk).map (fun vs' => vw :: vs')

/-- The viewer number `v`. -/
def viewerAt : List Viewer → Nat → Option Viewer
  | [], _ => none
  | vw :: _, 0 => some vw
  | _ :: vs, v + 1 => viewerAt vs v

/-- The frames viewer `v` has received, `none` when there is no viewer `v`. -/
def takenBy (vs : List Viewer) (v : Nat) : Option (List wplot) :=
  (viewerAt vs v).map (fun vw => vw.taken)

/-- The number of frames received by all viewers together. -/
def totalTaken : List Viewer → Nat
  | [] => 0
  | vw :: vs => vw.taken.length + totalTaken vs

/-- The events of `srv.plots`. -/
inductive PlotsEvent where
  /-- A websocket connection is opened on `/data`: a new `dataHandler` starts. -/
  | connect
  /-- A send of `f` on `srv.plots` completes into the buffer of the channel. -/
  | send (f : wplot)
  /-- A send of `f` on `srv.plots` meets the receive of viewer `v` directly;
  `sendOk` is the outcome of the viewer's `websocket.JSON.Send`. -/
  | sync (f : wplot) (v : Nat) (sendOk : Bool)
  /-- Viewer `v` receives the oldest buffered value. -/
  | recv (v : Nat) (sendOk : Bool)
deriving DecidableEq, Repr

/-- One event of `srv.plots` with capacity `cap`; `none` when the event cannot
happen.  A value sent is received by one viewer. -/
def Plots.step (cap : Nat) (P : Plots) : PlotsEvent → Option Plots
  | .connect => some { P with viewers := P.viewers ++ [{ taken := [], logged := 0 }] }
  | .send f => if P.buf.length < cap then some { P with buf := P.buf ++ [f] } else none
  | .sync f v sendOk =>
    match P.buf with
    | [] => (deliver P.viewers v f sendOk).map (fun vs => { P with viewers := vs })
    | _ :: _ => none
  | .recv v sendOk =>
    match P.buf with
    | [] => none
    | f :: rest => (deliver P.viewers v f sendOk).map (fun vs => { buf := rest, viewers := vs })

/-- A sequence of events of `srv.plots`. -/
def Plots.exec (cap : Nat) : Plots → List PlotsEvent → Option Plots
  | P, [] => some P
  | P, e :: es => (Plots.step cap P e).bind (fun P' => Plots.exec cap P' es)

/-- The values sent on `srv.plots` during a sequence of events, in order. -/
def Plots.placed : List PlotsEvent → List wplot
  | [] => []
  | .send f :: es => f :: Plots.placed es
  | .sync f _ _ :: es => f :: Plots.placed es
  | _ :: es => Plots.placed es

/-- No value buffered, no viewer connected. -/
def Plots.empty : Plots := { buf := [], viewers := [] }

/-- Where a call of `Paint` stands. -/
inductive PaintPc where
  /-- Blocked in `<-srv.wait`. -/
  | atWait
  /-- Past the wait, evaluating `renderImage(title, pixels)`. -/
  | rendering
  /-- Blocked in `srv.datac <- w`. -/
  | atSend (w : wimage)
  /-- Blocked in `<-srv.quit`. -/
  | atQuit
  /-- The call has returned. -/
  | returned
deriving DecidableEq, Repr

/-- A call of `Paint`: its arguments and where it stands. -/
structure PaintCall where
  title : String
  pixels : Pixels
  pc : PaintPc
deriving DecidableEq, Repr

/-- Where the goroutine `srv.run` stands. -/
inductive RunPc where
  /-- In the `select` of the `for` loop. -/
  | atSelect
  /-- Past `<-srv.done`, blocked in `srv.plots <- plot(srv.n, srv.in, srv.out)`. -/
  | atPlots
  /-- In `time.Sleep(1 * time.Second)`. -/
  | sleeping
  /-- Blocked in `srv.quit <- 1`. -/
  | atQuit
  /-- The goroutine has returned. -/
  | returned
deriving DecidableEq, Repr

/-- What the file leaves open: the codec, the value of
`plot(srv.n, srv.in, srv.out)` and the capacity of `srv.plots`. -/
structure Env where
  pngBase64 : NRGBA → String
  final : wplot
  plotsCap : Nat

/-- The state of the process: the calls of `Paint` made so far, the goroutine
`srv.run`, the channel `srv.plots` with its viewers, and whether the process
has died in a panic or `log.Fatalf`. -/
structure State where
  paints : List PaintCall
  run : RunPc
  plots : Plots
  aborted : Option Abort
deriving DecidableEq, Repr

/-- The state once `srv` holds the result of `newServer`: `srv.run` in its loop,
no call of `Paint`, no viewer. -/
def init : State := { paints := [], run := .atSelect, plots := Plots.empty, aborted := none }

/-- The call number `i`. -/
def callAt : List PaintCall → Nat → Option PaintCall
  | [], _ => none
  | c :: _, 0 => some c
  | _ :: cs, i + 1 => callAt cs i

/-- Where call `i` stands. -/
def pcAt (ps : List PaintCall) (i : Nat) : Option PaintPc := (callAt ps i).map (fun c => c.pc)

/-- Move call `i` to `pc`. -/
def setPc : List PaintCall → Nat → PaintPc → List PaintCall
  | [], _, _ => []
  | c :: cs, 0, pc => { c with pc := pc } :: cs
  | c :: cs, i + 1, pc => c :: setPc cs i pc

/-- Whether some call of `Paint` is blocked in `<-srv.wait`. -/
def someoneWaits (ps : List PaintCall) : Bool := ps.any (fun c => decide (c.pc = .atWait))

/-- The events of the process. -/
inductive Event where
  /-- A goroutine calls `Paint(title, pixels)` and blocks in `<-srv.wait`. -/
  | paintCall (title : String) (pixels : Pixels)
  /-- A request for `/` is served by `plotHandle`: its `select` sends on
  `srv.wait` to the waiting call `i` (`some i`) or takes `default` (`none`). -/
  | pageServe (target : Option Nat)
  /-- Call `i` evaluates `renderImage(title, pixels)`. -/
  | render (i : Nat)
  /-- The send of call `i` on `srv.datac` meets the receive in the `select` of `srv.run`. -/
  | handoff (i : Nat)
  /-- A send on `srv.done` meets the receive in the `select` of `srv.run`. -/
  | done
  /-- The send of `srv.run` on `srv.plots` completes into the buffer. -/
  | plotsSend
  /-- The send of `srv.run` on `srv.plots` meets the receive of viewer `v`. -/
  | plotsSync (v : Nat) (sendOk : Bool)
  /-- The sleep of `srv.run` is over. -/
  | wake
  /-- The send of `srv.run` on `srv.quit` meets the receive of call `i`;
  `srv.run` returns and so does the call. -/
  | quit (i : Nat)
  /-- A websocket connection is opened on `/data`. -/
  | connect
  /-- Viewer `v` receives the oldest value buffered in `srv.plots`. -/
  | recv (v : Nat) (sendOk : Bool)
deriving DecidableEq, Repr

/-- The handler `plotHandle`, after it has written the page:
`select { case srv.wait <- 1: default: }`.  The send is taken when a call of
`Paint` is blocked in `<-srv.wait` (that call goes on), `default` only when
none is; `default` changes nothing. -/
def plotHandle (s : State) : Option Nat → Option State
  | some i =>
    if pcAt s.paints i = some .atWait then
      some { s with paints := setPc s.paints i .rendering }
    else none
  | none => if someoneWaits s.paints then none else some s

/-- The steps of a call of `Paint` after its wait: the evaluation of
`renderImage`, which yields the frame to send or kills the process. -/
def paintRender (E : Env) (s : State) (i : Nat) : Option State :=
  match callAt s.paints i with
  | some c =>
    if c.pc = .rendering then
      match renderImage E.pngBase64 c.title c.pixels with
      | .ok w => some { s with paints := setPc s.paints i (.atSend w) }
      | .error a => some { s with aborted := some a }
    else none
  | none => none

/-- Whether call `i` is blocked in its send on `srv.datac`. -/
def isAtSend (ps : List PaintCall) (i : Nat) : Bool :=
  match pcAt ps i with
  | some (.atSend _) => true
  | _ => false

/-- One event of the process; `none` when the event cannot happen in `s`.
Nothing happens once the process has died.

* `Paint`: `paintCall` enters the function and blocks in `<-srv.wait`;
  `pageServe (some i)` is that receive; `render i` evaluates the operand of
  `srv.datac <- renderImage(title, pixels)`; `handoff i` is that send; `quit i`
  is `<-srv.quit`, after which the function returns.
* `srv.run`: in the `select` of its loop, `handoff i` is the case
  `wimg := <-srv.datac`, whose body is empty, so the frame is dropped and the
  loop goes back to the `select`; `done` is the case `<-srv.done`, followed by
  `srv.plots <- plot(srv.n, srv.in, srv.out)` (`plotsSend` or `plotsSync`),
  `time.Sleep` (`wake`), `srv.quit <- 1` (`quit i`) and `return`.
* `plotHandle`: `pageServe`.
* `dataHandler`: `connect` starts one, `recv` and `plotsSync` are iterations of
  its loop. -/
def step (E : Env) (s : State) (e : Event) : Option State :=
  if s.aborted.isSome then none
  else
    match e with
    | .paintCall title pixels =>
      some { s with paints := s.paints ++ [{ title := title, pixels := pixels, pc := .atWait }] }
    | .pageServe target => plotHandle s target
    | .render i => paintRender E s i
    | .handoff i =>
      if s.run = .atSelect ∧ isAtSend s.paints i = true then
        some { s with paints := setPc s.paints i .atQuit }
      else none
    | .done => if s.run = .atSelect then some { s with run := .atPlots } else none
    | .plotsSend =>
      if s.run = .atPlots then
        (Plots.step E.plotsCap s.plots (.send E.final)).map
          (fun P => { s with run := .sleeping, plots := P })
      else none
    | .plotsSync v sendOk =>
      if s.run = .atPlots then
        (Plots.step E.plotsCap s.plots (.sync E.final v sendOk)).map
          (fun P => { s with run := .sleeping, plots := P })
      else none
    | .wake => if s.run = .sleeping then some { s with run := .atQuit } else none
    | .quit i =>
      if s.run = .atQuit ∧ pcAt s.paints i = some .atQuit then
        some { s with run := .returned, paints := setPc s.paints i .returned }
      else none
    | .connect => (Plots.step E.plotsCap s.plots .connect).map (fun P => { s with plots := P })
    | .recv v sendOk =>
      (Plots.step E.plotsCap s.plots (.recv v sendOk)).map (fun P => { s with plots := P })

/-- A sequence of events. -/
def exec (E : Env) : State → List Event → Option State
  | s, [] => some s
  | s, e :: es => (step E s e).bind (fun s' => exec E s' es)

/-- Whether an event is a page request served by `plotHandle`. -/
def Event.isPage : Event → Bool
  | .pageServe _ => true
  | _ => false

/-- The record kept along an execution with past events `h`: a call that is
past its wait was handed a page request's send, and a call that is past its
send on `srv.datac` has had its frame received by `srv.run`. -/
def Hist (s : State) (h : List Event) : Prop :=
  ∀ j x, pcAt s.paints j = some x →
    (x ≠ .atWait → Event.pageServe (some j) ∈ h) ∧
    ((x = .atQuit ∨ x = .returned) → Event.handoff j ∈ h)

/-- A concrete codec used to run the model on examples: it writes the same
text for every image. -/
def samplePng : NRGBA → String := fun _ => "iVBORw0KGgo="

/-- A concrete encoder that keeps the dimensions: it writes the width as a run
of `w` and the height as a run of `h`. -/
def tallyPng (m : NRGBA) : String :=
  String.mk (List.replicate m.Bounds.Dx.toNat 'w' ++ List.replicate m.Bounds.Dy.toNat 'h')

/-- The decoder that goes with `tallyPng`: the width and the height read back
from the text. -/
def tallyConfig (t : String) : Option (Int × Int) :=
  some ((t.data.count 'w' : Nat), (t.data.count 'h' : Nat))

/-- The frame `renderImage` returns, with the codec `samplePng`, for a grid of
one row and one column. -/
def frame1x1 : wimage :=
  { Title := "", Image := "iVBORw0KGgo=",
    img := { Pix := [0, 0, 0, 0], Stride := 4,
             Rect := { Min := { X := 0, Y := 0 }, Max := { X := 1, Y := 1 } } } }

/-- A concrete environment used to run the model on examples: `srv.plots`
unbuffered. -/
def sampleEnv : Env := { pngBase64 := samplePng, final := { Plot := "final" }, plotsCap := 0 }

/-! ## Theorems, part 1 -/

theorem Rect_origin (w h : Nat) :
    Rect 0 0 (w : Int) (h : Int) = { Min := { X := 0, Y := 0 }, Max := { X := w, Y := h } } := by
  have hw : ¬ ((0 : Int) > (w : Int)) := by omega
  have hh : ¬ ((0 : Int) > (h : Int)) := by omega
  simp [Rect, hw, hh]

theorem mul3NonNeg_fits (w h : Nat) (hw : w < 2 ^ 32) (hbuf : 4 * w * h < 2 ^ 63) :
    mul3NonNeg 4 (w : Int) (h : Int) = ((4 * w * h : Nat) : Int) := by
  have hp : (4 : Int) * (w : Int) * (h : Int) = ((4 * w * h : Nat) : Int) := by push_cast; ring
  have h1 : ¬ ((4 : Int) < 0 ∨ (w : Int) < 0 ∨ (h : Int) < 0) := by omega
  have h2 : ¬ ((4 : Int) * (w : Int) ≥ 2 ^ 64) := by omega
  have h3 : ¬ ((4 : Int) * (w : Int) * (h : Int) ≥ 2 ^ 64) := by rw [hp]; omega
  have h4 : ¬ ((4 : Int) * (w : Int) * (h : Int) ≥ 2 ^ 63) := by rw [hp]; omega
  simp only [mul3NonNeg, h1, h2, if_false]
  rw [if_neg h3, if_neg h4, hp]

theorem NewNRGBA_origin (w h : Nat) (hw : w < 2 ^ 32) (hbuf : 4 * w * h ≤ 2 ^ 48) :
    NewNRGBA { Min := { X := 0, Y := 0 }, Max := { X := w, Y := h } }
      = .ok { Pix := List.replicate (4 * w * h) 0, Stride := 4 * (w : Int),
              Rect := { Min := { X := 0, Y := 0 }, Max := { X := w, Y := h } } } := by
  have hlen := mul3NonNeg_fits w h hw (by omega)
  have hneg : ¬ (((4 * w * h : Nat) : Int) < 0) := by omega
  have hmax : ¬ (((4 * w * h : Nat) : Int) > maxAlloc) := by
    unfold maxAlloc
    omega
  simp only [NewNRGBA, Rectangle.Dx, Rectangle.Dy, sub_zero, hlen, hneg, hmax, if_false,
    Int.toNat_ofNat]

theorem renderImage_ok (pngBase64 : NRGBA → String) (title : String) (row0 : List (Fin 256))
    (rest : List (List (Fin 256)))
    (hW : 1 ≤ row0.length) (hW32 : row0.length < 2 ^ 32) (hH32 : rest.length + 1 < 2 ^ 32)
    (hbuf : 4 * row0.length * (rest.length + 1) ≤ 2 ^ 48) :
    pngSizeOk
        { Pix := List.replicate (4 * row0.length * (rest.length + 1)) 0,
          Stride := 4 * (row0.length : Int),
          Rect := { Min := { X := 0, Y := 0 },
                    Max := { X := row0.length, Y := (rest.length + 1 : Nat) } } } = true
    ∧ renderImage pngBase64 title (row0 :: rest) =
      .ok { Title := "",
            Image := pngBase64
              { Pix := List.replicate (4 * row0.length * (rest.length + 1)) 0,
                Stride := 4 * (row0.length : Int),
                Rect := { Min := { X := 0, Y := 0 },
                          Max := { X := row0.length, Y := (rest.length + 1 : Nat) } } },
            img :=
              { Pix := List.replicate (4 * row0.length * (rest.length + 1)) 0,
                Stride := 4 * (row0.length : Int),
                Rect := { Min := { X := 0, Y := 0 },
                          Max := { X := row0.length, Y := (rest.length + 1 : Nat) } } } } := by
  have hsz : pngSizeOk
      { Pix := List.replicate (4 * row0.length * (rest.length + 1)) 0,
        Stride := 4 * (row0.length : Int),
        Rect := { Min := { X := 0, Y := 0 },
                  Max := { X := row0.length, Y := (rest.length + 1 : Nat) } } } = true := by
    simp only [pngSizeOk, NRGBA.Bounds, Rectangle.Dx, Rectangle.Dy, sub_zero]
    have a1 : ¬ ((row0.length : Int) ≤ 0) := by omega
    have a2 : ¬ (((rest.length + 1 : Nat) : Int) ≤ 0) := by omega
    have a3 : ¬ ((row0.length : Int) ≥ 2 ^ 32) := by omega
    have a4 : ¬ (((rest.length + 1 : Nat) : Int) ≥ 2 ^ 32) := by omega
    simp [a1, a2, a3, a4]
    omega
  have hlen : ((row0 :: rest).length : Int) = ((rest.length + 1 : Nat) : Int) := by
    simp
  refine ⟨hsz, ?_⟩
  simp only [renderImage]
  rw [hlen, Rect_origin, NewNRGBA_origin _ _ hW32 hbuf]
  simp only [hsz, if_true]

theorem tally_round_trip (m : NRGBA) (h : pngSizeOk m = true) :
    tallyConfig (tallyPng m) = some (m.Bounds.Dx, m.Bounds.Dy) := by
  simp only [pngSizeOk, Bool.not_eq_true', Bool.or_eq_false_iff, decide_eq_false_iff_not,
    not_le] at h
  obtain ⟨⟨⟨hx, hy⟩, _⟩, _⟩ := h
  have cx : (m.Bounds.Dx.toNat : Int) = m.Bounds.Dx := Int.toNat_of_nonneg (by omega)
  have cy : (m.Bounds.Dy.toNat : Int) = m.Bounds.Dy := Int.toNat_of_nonneg (by omega)
  simp [tallyConfig, tallyPng, List.count_replicate, cx, cy]

/-- C4 (as amended): for a grid whose first row has `W` columns with
`1 ≤ W < 2^32`, with `H < 2^32` rows (`H ≥ 1`) and a pixel buffer length
`4*W*H` that `make` accepts (at most `2^48`), `renderImage` returns a `wimage`
whose image has bounds with origin `(0,0)`, width exactly `W` and height
exactly `H`, and whose `Image` field is the encoding of that very image; so,
with any decoder that reads back the dimensions of the image the encoder was
given, decoding the encoded PNG gives a `W x H` grid.  The width comes from the
first row only: replacing the other rows by any rows (of any lengths) gives the
same result. -/
theorem renderImage_dimensions (pngBase64 : NRGBA → String)
    (decodeConfig : String → Option (Int × Int))
    (hcodec : ∀ m : NRGBA, pngSizeOk m = true →
      decodeConfig (pngBase64 m) = some (m.Bounds.Dx, m.Bounds.Dy))
    (title : String) (row0 : List (Fin 256)) (rest : List (List (Fin 256)))
    (hW : 1 ≤ row0.length) (hW32 : row0.length < 2 ^ 32) (hH32 : rest.length + 1 < 2 ^ 32)
    (hbuf : 4 * row0.length * (rest.length + 1) ≤ 2 ^ 48) :
    ∃ w : wimage, renderImage pngBase64 title (row0 :: rest) = .ok w
      ∧ w.img.Bounds.Min = { X := 0, Y := 0 }
      ∧ w.img.Bounds.Dx = (row0.length : Int)
      ∧ w.img.Bounds.Dy = ((row0 :: rest).length : Int)
      ∧ w.Image = pngBase64 w.img
      ∧ decodeConfig w.Image = some ((row0.length : Int), ((row0 :: rest).length : Int))
      ∧ ∀ rest' : List (List (Fin 256)), rest'.length = rest.length →
          renderImage pngBase64 title (row0 :: rest') = .ok w := by
  obtain ⟨hsz, hok⟩ := renderImage_ok pngBase64 title row0 rest hW hW32 hH32 hbuf
  refine ⟨_, hok, rfl, ?_, ?_, rfl, ?_, ?_⟩
  · simp [NRGBA.Bounds, Rectangle.Dx]
  · simp [NRGBA.Bounds, Rectangle.Dy]
  · rw [hcodec _ hsz]
    simp [NRGBA.Bounds, Rectangle.Dx, Rectangle.Dy]
  · intro rest' hlen
    have h := (renderImage_ok pngBase64 title row0 rest' hW hW32 (by omega)
      (by rw [hlen]; exact hbuf)).2
    rw [h, hlen]

/-- Witness for `renderImage_dimensions`: the 2-column, 2-row grid with a
shorter second row, and a codec that keeps the dimensions. -/
theorem renderImage_dimensions_witness :
    ∃ w : wimage, renderImage tallyPng "t" [[1, 2], [3]] = .ok w
      ∧ w.img.Bounds.Min = { X := 0, Y := 0 }
      ∧ w.img.Bounds.Dx = (([1, 2] : List (Fin 256)).length : Int)
      ∧ w.img.Bounds.Dy = ((([1, 2] : List (Fin 256)) :: [[3]]).length : Int)
      ∧ w.Image = tallyPng w.img
      ∧ tallyConfig w.Image = some ((([1, 2] : List (Fin 256)).length : Int),
          ((([1, 2] : List (Fin 256)) :: [[3]]).length : Int))
      ∧ ∀ rest' : List (List (Fin 256)), rest'.length = ([[3]] : List (List (Fin 256))).length →
          renderImage tallyPng "t" ([1, 2] :: rest') = .ok w :=
  renderImage_dimensions tallyPng tallyConfig tally_round_trip "t" [1, 2] [[3]]
    (by decide) (by simp) (by simp) (by simp)

/-- C4 (counterexample to the claim as stated): the grid with one row of zero
columns (`H = 1`, `W = 0`) yields no `wimage` at all: the PNG encoder rejects
the image size and `renderImage` ends in `log.Fatalf`. -/
theorem renderImage_zero_width_fatal :
    renderImage samplePng "t" [[]] = .error .fatalEncode
      ∧ ¬ ∃ w : wimage, renderImage samplePng "t" [[]] = .ok w := by
  have h : renderImage samplePng "t" [[]] = .error .fatalEncode := rfl
  exact ⟨h, fun ⟨w, hw⟩ => by rw [h] at hw; exact absurd hw (by simp)⟩

/-- C9 (the code at the failing input): for the title `"a"` and the 1x1 grid
`[[0]]`, `renderImage` returns a frame whose `Title` is the empty string, not
`"a"`. -/
theorem renderImage_title_dropped (pngBase64 : NRGBA → String) :
    ∃ w : wimage, renderImage pngBase64 "a" [[0]] = .ok w ∧ w.Title = "" ∧ w.Title ≠ "a" := by
  refine ⟨_, (renderImage_ok pngBase64 "a" [0] [] (by decide) (by simp) (by simp)
    (by simp)).2, rfl, ?_⟩
  simp

/-- C10 (the code at the failing input): the 1x1 grids `[[0]]` and `[[255]]`
differ in their only cell, yet `renderImage` returns the same frame, with the
same all-zero image, for both. -/
theorem renderImage_ignores_cells (pngBase64 : NRGBA → String) (title : String) :
    ([[0]] : Pixels) ≠ [[255]]
      ∧ ∃ w : wimage, renderImage pngBase64 title [[0]] = .ok w
          ∧ renderImage pngBase64 title [[255]] = .ok w
          ∧ w.img.Pix = [0, 0, 0, 0] := by
  refine ⟨by decide, _, (renderImage_ok pngBase64 title [0] [] (by decide) (by simp) (by simp)
    (by simp)).2, (renderImage_ok pngBase64 title [255] [] (by decide) (by simp) (by simp)
    (by simp)).2, ?_⟩
  simp [List.replicate]

/-! ## Theorems, part 2: the transition system -/

theorem callAt_setPc (ps : List PaintCall) (i : Nat) (pc : PaintPc) (j : Nat) :
    callAt (setPc ps i pc) j =
      if j = i then (callAt ps j).map (fun c => { c with pc := pc }) else callAt ps j := by
  induction ps generalizing i j with
  | nil => cases i <;> cases j <;> simp [setPc, callAt]
  | cons c cs ih =>
    cases i with
    | zero => cases j <;> simp [setPc, callAt]
    | succ i =>
      cases j with
      | zero => simp [setPc, callAt]
      | succ j => simp [setPc, callAt, ih]

theorem pcAt_setPc (ps : List PaintCall) (i : Nat) (pc : PaintPc) (j : Nat) :
    pcAt (setPc ps i pc) j = if j = i then (pcAt ps j).map (fun _ => pc) else pcAt ps j := by
  unfold pcAt
  rw [callAt_setPc]
  split
  · cases callAt ps j <;> simp
  · rfl

theorem callAt_snoc (ps : List PaintCall) (c : PaintCall) (j : Nat) :
    callAt (ps ++ [c]) j =
      if j < ps.length then callAt ps j else if j = ps.length then some c else none := by
  induction ps generalizing j with
  | nil => cases j <;> simp [callAt]
  | cons d ds ih => cases j <;> simp [callAt, ih]

theorem callAt_none_of_ge (ps : List PaintCall) (j : Nat) (h : ps.length ≤ j) :
    callAt ps j = none := by
  induction ps generalizing j with
  | nil => cases j <;> rfl
  | cons d ds ih =>
    cases j with
    | zero => simp at h
    | succ j => simp only [callAt]; exact ih j (by simpa using h)

theorem pcAt_snoc (ps : List PaintCall) (c : PaintCall) (j : Nat) :
    pcAt (ps ++ [c]) j =
      if j < ps.length then pcAt ps j else if j = ps.length then some c.pc else none := by
  unfold pcAt
  rw [callAt_snoc]
  split
  · rfl
  · split <;> rfl

theorem pcAt_none_of_ge (ps : List PaintCall) (j : Nat) (h : ps.length ≤ j) :
    pcAt ps j = none := by
  unfold pcAt
  rw [callAt_none_of_ge ps j h]
  rfl

theorem isAtSend_iff (ps : List PaintCall) (i : Nat) :
    isAtSend ps i = true ↔ ∃ w, pcAt ps i = some (.atSend w) := by
  unfold isAtSend
  cases h : pcAt ps i with
  | none => simp
  | some pc => cases pc <;> simp

theorem exec_append (E : Env) (s : State) (a b : List Event) :
    exec E s (a ++ b) = (exec E s a).bind (fun s' => exec E s' b) := by
  induction a generalizing s with
  | nil => simp [exec]
  | cons e es ih =>
    simp only [List.cons_append, exec]
    cases step E s e with
    | none => simp
    | some s1 => simp [ih]

theorem exec_split (E : Env) (s s' : State) (pre post : List Event) (e : Event)
    (h : exec E s (pre ++ e :: post) = some s') :
    ∃ s1 s2, exec E s pre = some s1 ∧ step E s1 e = some s2 ∧ exec E s2 post = some s' := by
  rw [exec_append] at h
  cases h1 : exec E s pre with
  | none => simp [h1] at h
  | some s1 =>
    simp only [h1, Option.some_bind, exec] at h
    cases h2 : step E s1 e with
    | none => simp [h2] at h
    | some s2 =>
      simp only [h2, Option.some_bind] at h
      exact ⟨s1, s2, rfl, h2, h⟩

theorem step_not_aborted (E : Env) (s s' : State) (e : Event) (h : step E s e = some s') :
    s.aborted = none := by
  unfold step at h
  cases ha : s.aborted with
  | none => rfl
  | some a => simp [ha] at h

/-- How one event changes where a call stands: either not at all, or by the
one line of `Paint` the event stands for. -/
theorem step_pc (E : Env) (s s' : State) (e : Event) (h : step E s e = some s')
    (j : Nat) (x' : PaintPc) (hx : pcAt s'.paints j = some x') :
    pcAt s.paints j = some x' ∨
    (e = .pageServe (some j) ∧ pcAt s.paints j = some .atWait ∧ x' = .rendering) ∨
    (e = .render j ∧ pcAt s.paints j = some .rendering ∧ ∃ w, x' = .atSend w) ∨
    (e = .handoff j ∧ s.run = .atSelect ∧ (∃ w, pcAt s.paints j = some (.atSend w))
      ∧ x' = .atQuit) ∨
    (e = .quit j ∧ s.run = .atQuit ∧ pcAt s.paints j = some .atQuit ∧ x' = .returned) ∨
    ((∃ t p, e = .paintCall t p) ∧ pcAt s.paints j = none ∧ x' = .atWait) := by
  have hab := step_not_aborted E s s' e h
  cases e <;> simp only [step, hab, Option.isSome_none, Bool.false_eq_true, if_false] at h
  case paintCall t p =>
    simp only [Option.some.injEq] at h
    subst h
    simp only [pcAt_snoc] at hx
    split at hx
    · exact Or.inl hx
    · split at hx
      · rename_i h1 h2
        right; right; right; right; right
        refine ⟨⟨t, p, rfl⟩, pcAt_none_of_ge _ _ (by omega), ?_⟩
        simpa using hx.symm
      · simp at hx
  case pageServe target =>
    cases target with
    | none =>
      simp only [plotHandle] at h
      split at h
      · simp at h
      · simp only [Option.some.injEq] at h
        subst h
        exact Or.inl hx
    | some i =>
      simp only [plotHandle] at h
      split at h
      · rename_i hw
        simp only [Option.some.injEq] at h
        subst h
        simp only [pcAt_setPc] at hx
        split at hx
        · rename_i hji
          subst hji
          right; left
          rw [hw] at hx
          exact ⟨rfl, hw, by simpa using hx.symm⟩
        · exact Or.inl hx
      · simp at h
  case render i =>
    simp only [paintRender] at h
    cases hc : callAt s.paints i with
    | none => simp [hc] at h
    | some c =>
      simp only [hc] at h
      split at h
      · rename_i hr
        have hpc : pcAt s.paints i = some .rendering := by simp [pcAt, hc, hr]
        cases hr2 : renderImage E.pngBase64 c.title c.pixels with
        | error a =>
          simp only [hr2, Option.some.injEq] at h
          subst h
          exact Or.inl hx
        | ok w =>
          simp only [hr2, Option.some.injEq] at h
          subst h
          simp only [pcAt_setPc] at hx
          split at hx
          · rename_i hji
            subst hji
            right; right; left
            rw [hpc] at hx
            exact ⟨rfl, hpc, w, by simpa using hx.symm⟩
          · exact Or.inl hx
      · simp at h
  case handoff i =>
    split at h
    · rename_i hc
      simp only [Option.some.injEq] at h
      subst h
      obtain ⟨w, hw⟩ := (isAtSend_iff _ _).1 hc.2
      simp only [pcAt_setPc] at hx
      split at hx
      · rename_i hji
        subst hji
        right; right; right; left
        rw [hw] at hx
        exact ⟨rfl, hc.1, ⟨w, hw⟩, by simpa using hx.symm⟩
      · exact Or.inl hx
    · simp at h
  case done =>
    split at h
    · simp only [Option.some.injEq] at h
      subst h
      exact Or.inl hx
    · simp at h
  case plotsSend =>
    split at h
    · simp only [Option.map_eq_some'] at h
      obtain ⟨P, _, hP⟩ := h
      subst hP
      exact Or.inl hx
    · simp at h
  case plotsSync v sendOk =>
    split at h
    · simp only [Option.map_eq_some'] at h
      obtain ⟨P, _, hP⟩ := h
      subst hP
      exact Or.inl hx
    · simp at h
  case wake =>
    split at h
    · simp only [Option.some.injEq] at h
      subst h
      exact Or.inl hx
    · simp at h
  case quit i =>
    split at h
    · rename_i hc
      simp only [Option.some.injEq] at h
      subst h
      simp only [pcAt_setPc] at hx
      split at hx
      · rename_i hji
        subst hji
        right; right; right; right; left
        rw [hc.2] at hx
        exact ⟨rfl, hc.1, hc.2, by simpa using hx.symm⟩
      · exact Or.inl hx
    · simp at h
  case connect =>
    simp only [Option.map_eq_some'] at h
    obtain ⟨P, _, hP⟩ := h
    subst hP
    exact Or.inl hx
  case recv v sendOk =>
    simp only [Option.map_eq_some'] at h
    obtain ⟨P, _, hP⟩ := h
    subst hP
    exact Or.inl hx

/-- Calls are never removed: a call that exists before an event exists after it. -/
theorem step_pc_mono (E : Env) (s s' : State) (e : Event) (h : step E s e = some s')
    (j : Nat) (x : PaintPc) (hx : pcAt s.paints j = some x) :
    ∃ x', pcAt s'.paints j = some x' := by
  have hab := step_not_aborted E s s' e h
  have hset : ∀ i pc, ∃ x', pcAt (setPc s.paints i pc) j = some x' := by
    intro i pc
    rw [pcAt_setPc]
    split
    · exact ⟨pc, by simp [hx]⟩
    · exact ⟨x, hx⟩
  cases e <;> simp only [step, hab, Option.isSome_none, Bool.false_eq_true, if_false] at h
  case paintCall t p =>
    simp only [Option.some.injEq] at h
    subst h
    refine ⟨x, ?_⟩
    simp only [pcAt_snoc]
    have hlt : j < s.paints.length := by
      by_contra hc
      rw [pcAt_none_of_ge _ _ (by omega)] at hx
      simp at hx
    simp [hlt, hx]
  case pageServe target =>
    cases target with
    | none =>
      simp only [plotHandle] at h
      split at h
      · simp at h
      · simp only [Option.some.injEq] at h
        subst h
        exact ⟨x, hx⟩
    | some i =>
      simp only [plotHandle] at h
      split at h
      · simp only [Option.some.injEq] at h
        subst h
        exact hset _ _
      · simp at h
  case render i =>
    simp only [paintRender] at h
    cases hc : callAt s.paints i with
    | none => simp [hc] at h
    | some c =>
      simp only [hc] at h
      split at h
      · cases hr2 : renderImage E.pngBase64 c.title c.pixels with
        | error a =>
          simp only [hr2, Option.some.injEq] at h
          subst h
          exact ⟨x, hx⟩
        | ok w =>
          simp only [hr2, Option.some.injEq] at h
          subst h
          exact hset _ _
      · simp at h
  case handoff i =>
    split at h
    · simp only [Option.some.injEq] at h
      subst h
      exact hset _ _
    · simp at h
  case done =>
    split at h
    · simp only [Option.some.injEq] at h
      subst h
      exact ⟨x, hx⟩
    · simp at h
  case plotsSend =>
    split at h
    · simp only [Option.map_eq_some'] at h
      obtain ⟨P, _, hP⟩ := h
      subst hP
      exact ⟨x, hx⟩
    · simp at h
  case plotsSync v sendOk =>
    split at h
    · simp only [Option.map_eq_some'] at h
      obtain ⟨P, _, hP⟩ := h
      subst hP
      exact ⟨x, hx⟩
    · simp at h
  case wake =>
    split at h
    · simp only [Option.some.injEq] at h
      subst h
      exact ⟨x, hx⟩
    · simp at h
  case quit i =>
    split at h
    · simp only [Option.some.injEq] at h
      subst h
      exact hset _ _
    · simp at h
  case connect =>
    simp only [Option.map_eq_some'] at h
    obtain ⟨P, _, hP⟩ := h
    subst hP
    exact ⟨x, hx⟩
  case recv v sendOk =>
    simp only [Option.map_eq_some'] at h
    obtain ⟨P, _, hP⟩ := h
    subst hP
    exact ⟨x, hx⟩

/-- Once `srv.run` has returned it stays returned. -/
theorem step_run_returned (E : Env) (s s' : State) (e : Event) (h : step E s e = some s')
    (hr : s.run = .returned) : s'.run = .returned := by
  have hab := step_not_aborted E s s' e h
  cases e <;> simp only [step, hab, Option.isSome_none, Bool.false_eq_true, if_false, hr,
    false_and, reduceCtorEq] at h
  case paintCall t p =>
    simp only [Option.some.injEq] at h
    subst h
    rfl
  case pageServe target =>
    cases target with
    | none =>
      simp only [plotHandle] at h
      split at h
      · simp at h
      · simp only [Option.some.injEq] at h
        subst h
        exact hr
    | some i =>
      simp only [plotHandle] at h
      split at h
      · simp only [Option.some.injEq] at h
        subst h
        exact hr
      · simp at h
  case render i =>
    simp only [paintRender] at h
    cases hc : callAt s.paints i with
    | none => simp [hc] at h
    | some c =>
      simp only [hc] at h
      split at h
      · cases hr2 : renderImage E.pngBase64 c.title c.pixels with
        | error a =>
          simp only [hr2, Option.some.injEq] at h
          subst h
          exact hr
        | ok w =>
          simp only [hr2, Option.some.injEq] at h
          subst h
          exact hr
      · simp at h
  case connect =>
    simp only [Option.map_eq_some'] at h
    obtain ⟨P, _, hP⟩ := h
    subst hP
    rfl
  case recv v sendOk =>
    simp only [Option.map_eq_some'] at h
    obtain ⟨P, _, hP⟩ := h
    subst hP
    rfl

theorem step_handoff_inv (E : Env) (s s' : State) (i : Nat)
    (h : step E s (.handoff i) = some s') :
    s.run = .atSelect ∧ ∃ w, pcAt s.paints i = some (.atSend w) := by
  have hab := step_not_aborted E s s' _ h
  simp only [step, hab, Option.isSome_none, Bool.false_eq_true, if_false] at h
  split at h
  · rename_i hc
    exact ⟨hc.1, (isAtSend_iff _ _).1 hc.2⟩
  · simp at h

theorem step_quit_inv (E : Env) (s s' : State) (i : Nat)
    (h : step E s (.quit i) = some s') :
    s.run = .atQuit ∧ pcAt s.paints i = some .atQuit := by
  have hab := step_not_aborted E s s' _ h
  simp only [step, hab, Option.isSome_none, Bool.false_eq_true, if_false] at h
  split at h
  · rename_i hc
    exact hc
  · simp at h

theorem Hist_init : Hist init [] := by
  intro j x hx
  simp [init, pcAt, callAt] at hx

theorem Hist_step (E : Env) (s s' : State) (e : Event) (h : List Event)
    (hinv : Hist s h) (hs : step E s e = some s') : Hist s' (h ++ [e]) := by
  intro j x hx
  rcases step_pc E s s' e hs j x hx with h0 | ⟨he, hold, hx'⟩ | ⟨he, hold, w, hx'⟩ |
    ⟨he, _, ⟨w, hold⟩, hx'⟩ | ⟨he, _, hold, hx'⟩ | ⟨_, _, hx'⟩
  · obtain ⟨h1, h2⟩ := hinv j x h0
    exact ⟨fun hne => List.mem_append_left _ (h1 hne), fun hq => List.mem_append_left _ (h2 hq)⟩
  · subst hx' he
    exact ⟨fun _ => by simp, fun hq => by rcases hq with hq | hq <;> cases hq⟩
  · subst hx'
    refine ⟨fun _ => List.mem_append_left _ ((hinv j _ hold).1 (by simp)), fun hq => ?_⟩
    rcases hq with hq | hq <;> cases hq
  · subst hx' he
    exact ⟨fun _ => List.mem_append_left _ ((hinv j _ hold).1 (by simp)), fun _ => by simp⟩
  · subst hx'
    exact ⟨fun _ => List.mem_append_left _ ((hinv j _ hold).1 (by simp)),
      fun _ => List.mem_append_left _ ((hinv j _ hold).2 (Or.inl rfl))⟩
  · subst hx'
    exact ⟨fun hne => absurd rfl hne, fun hq => by rcases hq with hq | hq <;> cases hq⟩

theorem Hist_exec (E : Env) (tr : List Event) :
    ∀ (s s' : State) (h : List Event), Hist s h → exec E s tr = some s' → Hist s' (h ++ tr) := by
  induction tr with
  | nil =>
    intro s s' h hinv he
    simp only [exec, Option.some.injEq] at he
    subst he
    simpa using hinv
  | cons e es ih =>
    intro s s' h hinv he
    simp only [exec] at he
    cases hs : step E s e with
    | none => simp [hs] at he
    | some s1 =>
      simp only [hs, Option.some_bind] at he
      have := ih s1 s' (h ++ [e]) (Hist_step E s s1 e h hinv hs) he
      simpa using this

theorem someoneWaits_of_callAt (ps : List PaintCall) (i : Nat) (c : PaintCall)
    (hc : callAt ps i = some c) (hw : c.pc = .atWait) : someoneWaits ps = true := by
  induction ps generalizing i with
  | nil => cases i <;> simp [callAt] at hc
  | cons d ds ih =>
    cases i with
    | zero =>
      simp only [callAt, Option.some.injEq] at hc
      subst hc
      simp [someoneWaits, hw]
    | succ i =>
      simp only [callAt] at hc
      have := ih i hc
      simp only [someoneWaits, List.any_cons, Bool.or_eq_true] at this ⊢
      exact Or.inr this

/-- A call blocked in its send on `srv.datac` is received at once by a
`srv.run` that is in its `select`. -/
theorem handoff_enabled (E : Env) (s : State) (i : Nat) (w : wimage)
    (hab : s.aborted = none) (hrun : s.run = .atSelect)
    (hpc : pcAt s.paints i = some (.atSend w)) :
    ∃ s3, exec E s [.handoff i] = some s3 ∧ pcAt s3.paints i = some .atQuit := by
  have hs : isAtSend s.paints i = true := (isAtSend_iff _ _).2 ⟨w, hpc⟩
  have h3 : step E s (.handoff i) = some { s with paints := setPc s.paints i .atQuit } := by
    simp [step, hab, hrun, hs]
  refine ⟨{ s with paints := setPc s.paints i .atQuit }, ?_, ?_⟩
  · simp only [exec, h3, Option.some_bind]
  · simp [pcAt_setPc, hpc]

/-- A call that is evaluating `renderImage` on a grid for which it returns a
frame gets to its send, and a `srv.run` in its `select` receives it. -/
theorem render_handoff_enabled (E : Env) (s : State) (i : Nat) (c : PaintCall) (w : wimage)
    (hab : s.aborted = none) (hrun : s.run = .atSelect)
    (hc : callAt s.paints i = some c) (hpc : c.pc = .rendering)
    (hr : renderImage E.pngBase64 c.title c.pixels = .ok w) :
    ∃ s3, exec E s [.render i, .handoff i] = some s3 ∧ pcAt s3.paints i = some .atQuit := by
  have hp : pcAt s.paints i = some .rendering := by simp [pcAt, hc, hpc]
  have h2 : step E s (.render i) = some { s with paints := setPc s.paints i (.atSend w) } := by
    simp [step, hab, paintRender, hc, hpc, hr]
  have hp2 : pcAt (setPc s.paints i (.atSend w)) i = some (.atSend w) := by
    simp [pcAt_setPc, hp]
  obtain ⟨s3, h3, hq⟩ := handoff_enabled E { s with paints := setPc s.paints i (.atSend w) }
    i w hab hrun hp2
  refine ⟨s3, ?_, hq⟩
  simp only [exec, h2, Option.some_bind] at h3 ⊢
  exact h3

/-- The arguments of a call never change. -/
theorem step_call_mono (E : Env) (s s' : State) (e : Event) (h : step E s e = some s')
    (j : Nat) (c : PaintCall) (hc : callAt s.paints j = some c) :
    ∃ c', callAt s'.paints j = some c' ∧ c'.title = c.title ∧ c'.pixels = c.pixels := by
  have hab := step_not_aborted E s s' e h
  have hset : ∀ i pc, ∃ c', callAt (setPc s.paints i pc) j = some c'
      ∧ c'.title = c.title ∧ c'.pixels = c.pixels := by
    intro i pc
    rw [callAt_setPc]
    split
    · exact ⟨{ c with pc := pc }, by simp [hc], rfl, rfl⟩
    · exact ⟨c, hc, rfl, rfl⟩
  have hsame : ∃ c', callAt s.paints j = some c' ∧ c'.title = c.title ∧ c'.pixels = c.pixels :=
    ⟨c, hc, rfl, rfl⟩
  cases e <;> simp only [step, hab, Option.isSome_none, Bool.false_eq_true, if_false] at h
  case paintCall t p =>
    simp only [Option.some.injEq] at h
    subst h
    refine ⟨c, ?_, rfl, rfl⟩
    simp only [callAt_snoc]
    have hlt : j < s.paints.length := by
      by_contra hlt
      rw [callAt_none_of_ge _ _ (by omega)] at hc
      simp at hc
    simp [hlt, hc]
  case pageServe target =>
    cases target with
    | none =>
      simp only [plotHandle] at h
      split at h
      · simp at h
      · simp only [Option.some.injEq] at h
        subst h
        exact hsame
    | some i =>
      simp only [plotHandle] at h
      split at h
      · simp only [Option.some.injEq] at h
        subst h
        exact hset _ _
      · simp at h
  case render i =>
    simp only [paintRender] at h
    cases hci : callAt s.paints i with
    | none => simp [hci] at h
    | some d =>
      simp only [hci] at h
      split at h
      · cases hr2 : renderImage E.pngBase64 d.title d.pixels with
        | error a =>
          simp only [hr2, Option.some.injEq] at h
          subst h
          exact hsame
        | ok w =>
          simp only [hr2, Option.some.injEq] at h
          subst h
          exact hset _ _
      · simp at h
  case handoff i =>
    split at h
    · simp only [Option.some.injEq] at h
      subst h
      exact hset _ _
    · simp at h
  case done =>
    split at h
    · simp only [Option.some.injEq] at h
      subst h
      exact hsame
    · simp at h
  case plotsSend =>
    split at h
    · simp only [Option.map_eq_some'] at h
      obtain ⟨P, _, hP⟩ := h
      subst hP
      exact hsame
    · simp at h
  case plotsSync v sendOk =>
    split at h
    · simp only [Option.map_eq_some'] at h
      obtain ⟨P, _, hP⟩ := h
      subst hP
      exact hsame
    · simp at h
  case wake =>
    split at h
    · simp only [Option.some.injEq] at h
      subst h
      exact hsame
    · simp at h
  case quit i =>
    split at h
    · simp only [Option.some.injEq] at h
      subst h
      exact hset _ _
    · simp at h
  case connect =>
    simp only [Option.map_eq_some'] at h
    obtain ⟨P, _, hP⟩ := h
    subst hP
    exact hsame
  case recv v sendOk =>
    simp only [Option.map_eq_some'] at h
    obtain ⟨P, _, hP⟩ := h
    subst hP
    exact hsame

/-- The frame a call sends is the one `renderImage` returned for its arguments. -/
theorem step_render_frame (E : Env) (s s' : State) (i : Nat) (c : PaintCall) (w' : wimage)
    (h : step E s (.render i) = some s') (hc : callAt s.paints i = some c)
    (hpc : c.pc = .rendering) (hx : pcAt s'.paints i = some (.atSend w')) :
    renderImage E.pngBase64 c.title c.pixels = .ok w' := by
  have hab := step_not_aborted E s s' _ h
  have hp : pcAt s.paints i = some .rendering := by simp [pcAt, hc, hpc]
  simp only [step, hab, Option.isSome_none, Bool.false_eq_true, if_false, paintRender, hc, hpc,
    if_true] at h
  cases hr2 : renderImage E.pngBase64 c.title c.pixels with
  | error a =>
    simp only [hr2, Option.some.injEq] at h
    subst h
    rw [hp] at hx
    cases hx
  | ok w =>
    simp only [hr2, Option.some.injEq] at h
    subst h
    simp only [pcAt_setPc, if_true, hp, Option.map_some', Option.some.injEq,
      PaintPc.atSend.injEq] at hx
    rw [hx]

/-- A call that is past its wait, with a grid for which `renderImage` returns
the frame `w`, is evaluating `renderImage` or blocked in its send of `w` until
`srv.run` receives that frame. -/
theorem released_until_handoff (E : Env) (tr : List Event) :
    ∀ (s s' : State) (i : Nat) (c : PaintCall) (w : wimage),
      callAt s.paints i = some c → (c.pc = .rendering ∨ c.pc = .atSend w) →
      renderImage E.pngBase64 c.title c.pixels = .ok w → exec E s tr = some s' →
      Event.handoff i ∈ tr ∨
      ∃ c', callAt s'.paints i = some c' ∧ (c'.pc = .rendering ∨ c'.pc = .atSend w)
        ∧ renderImage E.pngBase64 c'.title c'.pixels = .ok w := by
  induction tr with
  | nil =>
    intro s s' i c w hc hpc hr he
    simp only [exec, Option.some.injEq] at he
    subst he
    exact Or.inr ⟨c, hc, hpc, hr⟩
  | cons e es ih =>
    intro s s' i c w hc hpc hr he
    simp only [exec] at he
    cases hs : step E s e with
    | none => simp [hs] at he
    | some s1 =>
      simp only [hs, Option.some_bind] at he
      obtain ⟨c1, hc1, ht1, hp1⟩ := step_call_mono E s s1 e hs i c hc
      have hold : pcAt s.paints i = some c.pc := by simp [pcAt, hc]
      have hx1 : pcAt s1.paints i = some c1.pc := by simp [pcAt, hc1]
      have hr1 : renderImage E.pngBase64 c1.title c1.pixels = .ok w := by rw [ht1, hp1]; exact hr
      have hnext : e = Event.handoff i ∨ (c1.pc = .rendering ∨ c1.pc = .atSend w) := by
        rcases step_pc E s s1 e hs i c1.pc hx1 with h0 | ⟨_, hw, _⟩ | ⟨he', hrd, w', hx'⟩ |
          ⟨he', _, _, _⟩ | ⟨_, _, hq, _⟩ | ⟨_, hnone, _⟩
        · rw [hold] at h0
          simp only [Option.some.injEq] at h0
          rw [← h0]
          exact Or.inr hpc
        · rw [hold] at hw
          simp only [Option.some.injEq] at hw
          rcases hpc with hpc | hpc <;> rw [hpc] at hw <;> cases hw
        · subst he'
          rw [hold] at hrd
          simp only [Option.some.injEq] at hrd
          rw [hx'] at hx1
          have := step_render_frame E s s1 i c w' hs hc hrd hx1
          rw [hr] at this
          simp only [Except.ok.injEq] at this
          subst this
          exact Or.inr (Or.inr hx')
        · exact Or.inl he'
        · rw [hold] at hq
          simp only [Option.some.injEq] at hq
          rcases hpc with hpc | hpc <;> rw [hpc] at hq <;> cases hq
        · rw [hold] at hnone
          cases hnone
      rcases hnext with hhead | hpc1
      · exact Or.inl (by simp [hhead])
      · rcases ih s1 s' i c1 w hc1 hpc1 hr1 he with hmem | hres
        · exact Or.inl (List.mem_cons_of_mem _ hmem)
        · exact Or.inr hres

theorem blocked_after_return (E : Env) (tr : List Event) :
    ∀ (s s' : State) (k : Nat) (x : PaintPc), s.run = .returned → pcAt s.paints k = some x →
      x ≠ .atQuit → x ≠ .returned → exec E s tr = some s' →
      s'.run = .returned ∧ ∃ x', pcAt s'.paints k = some x' ∧ x' ≠ .atQuit ∧ x' ≠ .returned := by
  induction tr with
  | nil =>
    intro s s' k x hr hx h1 h2 he
    simp only [exec, Option.some.injEq] at he
    subst he
    exact ⟨hr, x, hx, h1, h2⟩
  | cons e es ih =>
    intro s s' k x hr hx h1 h2 he
    simp only [exec] at he
    cases hs : step E s e with
    | none => simp [hs] at he
    | some s1 =>
      simp only [hs, Option.some_bind] at he
      obtain ⟨x1, hx1⟩ := step_pc_mono E s s1 e hs k x hx
      have hr1 := step_run_returned E s s1 e hs hr
      have hgood : x1 ≠ .atQuit ∧ x1 ≠ .returned := by
        rcases step_pc E s s1 e hs k x1 hx1 with h0 | ⟨_, _, hx'⟩ | ⟨_, _, w, hx'⟩ |
          ⟨_, hsel, _, _⟩ | ⟨_, hq, _, _⟩ | ⟨_, hnone, _⟩
        · rw [hx] at h0
          simp only [Option.some.injEq] at h0
          subst h0
          exact ⟨h1, h2⟩
        · subst hx'
          simp
        · subst hx'
          simp
        · rw [hr] at hsel
          cases hsel
        · rw [hr] at hq
          cases hq
        · rw [hx] at hnone
          cases hnone
      exact ih s1 s' k x1 hr1 hx1 hgood.1 hgood.2 he

theorem stays_waiting (E : Env) (tr : List Event) :
    ∀ (s s' : State) (i : Nat), pcAt s.paints i = some .atWait →
      Event.pageServe (some i) ∉ tr → exec E s tr = some s' →
      pcAt s'.paints i = some .atWait := by
  induction tr with
  | nil =>
    intro s s' i hx _ he
    simp only [exec, Option.some.injEq] at he
    subst he
    exact hx
  | cons e es ih =>
    intro s s' i hx hno he
    simp only [exec] at he
    cases hs : step E s e with
    | none => simp [hs] at he
    | some s1 =>
      simp only [hs, Option.some_bind] at he
      obtain ⟨x1, hx1⟩ := step_pc_mono E s s1 e hs i _ hx
      have hne : e ≠ Event.pageServe (some i) := fun hc => hno (by simp [hc])
      have hno' : Event.pageServe (some i) ∉ es := fun hc => hno (List.mem_cons_of_mem _ hc)
      have hw : pcAt s1.paints i = some .atWait := by
        rcases step_pc E s s1 e hs i x1 hx1 with h0 | ⟨he', _, _⟩ | ⟨_, hold, _⟩ |
          ⟨_, _, ⟨w, hold⟩, _⟩ | ⟨_, _, hold, _⟩ | ⟨_, hnone, _⟩
        · rw [hx] at h0
          rw [hx1, ← h0]
        · exact absurd he' hne
        · rw [hx] at hold
          cases hold
        · rw [hx] at hold
          cases hold
        · rw [hx] at hold
          cases hold
        · rw [hx] at hnone
          cases hnone
      exact ih s1 s' i hw hno' he

theorem no_handoff_after_return (E : Env) (tr : List Event) :
    ∀ (s s' : State) (i : Nat), s.run = .returned → exec E s tr = some s' →
      Event.handoff i ∉ tr := by
  induction tr with
  | nil =>
    intro s s' i _ _
    simp
  | cons e es ih =>
    intro s s' i hr he
    simp only [exec] at he
    cases hs : step E s e with
    | none => simp [hs] at he
    | some s1 =>
      simp only [hs, Option.some_bind] at he
      intro hmem
      rcases List.mem_cons.1 hmem with hhead | htail
      · subst hhead
        have := (step_handoff_inv E s s1 i hs).1
        rw [hr] at this
        cases this
      · exact ih s1 s' i (step_run_returned E s s1 e hs hr) he htail

theorem paintCall_step (E : Env) (s s1 : State) (title : String) (pixels : Pixels)
    (hs : step E s (.paintCall title pixels) = some s1) :
    s1.run = s.run ∧ pcAt s1.paints s.paints.length = some .atWait := by
  have hab := step_not_aborted E s s1 _ hs
  simp only [step, hab, Option.isSome_none, Bool.false_eq_true, if_false,
    Option.some.injEq] at hs
  subst hs
  exact ⟨rfl, by simp [pcAt_snoc]⟩

/-! ## The claims about the handshake -/

/-- C1 (as amended): in every execution from the start, each hand-over of a
frame from a call of `Paint` to `srv.run` on `srv.datac` comes after a page
request whose send on `srv.wait` was received by that call.  And in the state
reached, when a call is blocked in `<-srv.wait`, a page request cannot take
its `default` branch and, while the process lives, its send to the call can
happen.  The call that receives it never waits for a second page request:
when `renderImage` returns a frame for the call's grid, then after the send and
any further events whatever, if `srv.run` is still in its `select` and the
process has not died, either `srv.run` has received the call's frame or the
call's own remaining steps (the evaluation of `renderImage`, the send on
`srv.datac`) can follow at once and hand it over. -/
theorem rendezvous (E : Env) (tr : List Event) (s : State) (h : exec E init tr = some s) :
    (∀ pre post i, tr = pre ++ Event.handoff i :: post → Event.pageServe (some i) ∈ pre)
    ∧ (∀ i c, callAt s.paints i = some c → c.pc = .atWait →
        step E s (.pageServe none) = none
        ∧ (s.aborted = none → ∃ s1, step E s (.pageServe (some i)) = some s1)
        ∧ ∀ w, renderImage E.pngBase64 c.title c.pixels = .ok w →
            ∀ tr' s2, exec E s (Event.pageServe (some i) :: tr') = some s2 →
              s2.run = .atSelect → s2.aborted = none →
              Event.handoff i ∈ tr' ∨
              ∃ rest s3, (rest = [Event.render i, Event.handoff i] ∨ rest = [Event.handoff i])
                ∧ exec E s2 rest = some s3 ∧ pcAt s3.paints i = some .atQuit) := by
  constructor
  · intro pre post i htr
    subst htr
    obtain ⟨s1, s2, h1, h2, _⟩ := exec_split E init s pre post _ h
    have hinv := Hist_exec E pre init s1 [] Hist_init h1
    obtain ⟨_, w, hw⟩ := step_handoff_inv E s1 s2 i h2
    simpa using (hinv i _ hw).1 (by simp)
  · intro i c hc hw
    have hpc : pcAt s.paints i = some .atWait := by simp [pcAt, hc, hw]
    refine ⟨?_, ?_, ?_⟩
    · have hsw := someoneWaits_of_callAt s.paints i c hc hw
      unfold step
      split
      · rfl
      · simp [plotHandle, hsw]
    · intro hab
      exact ⟨{ s with paints := setPc s.paints i .rendering }, by simp [step, hab, plotHandle, hpc]⟩
    · intro w hr tr' s2 he hrun hab2
      simp only [exec] at he
      cases hs : step E s (.pageServe (some i)) with
      | none => simp [hs] at he
      | some s1 =>
        simp only [hs, Option.some_bind] at he
        have hab := step_not_aborted E s s1 _ hs
        have hs1 : s1 = { paints := setPc s.paints i PaintPc.rendering, run := s.run,
                          plots := s.plots, aborted := none } := by
          simp only [step, hab, Option.isSome_none, Bool.false_eq_true, if_false, plotHandle, hpc,
            if_true, Option.some.injEq] at hs
          exact hs.symm
        have hc1 : callAt s1.paints i = some { c with pc := .rendering } := by
          rw [hs1]
          simp [callAt_setPc, hc]
        rcases released_until_handoff E tr' s1 s2 i { c with pc := .rendering } w hc1
          (Or.inl rfl) hr he with hmem | ⟨c2, hc2, hpc2, hr2⟩
        · exact Or.inl hmem
        · right
          rcases hpc2 with hrd | hsd
          · obtain ⟨s3, h3, hq⟩ := render_handoff_enabled E s2 i c2 w hab2 hrun hc2 hrd hr2
            exact ⟨_, s3, Or.inl rfl, h3, hq⟩
          · have hp2 : pcAt s2.paints i = some (.atSend w) := by simp [pcAt, hc2, hsd]
            obtain ⟨s3, h3, hq⟩ := handoff_enabled E s2 i w hab2 hrun hp2
            exact ⟨_, s3, Or.inr rfl, h3, hq⟩

/-- Witness for `rendezvous`: one call served and handed over, a second call
waiting; the second call is released, a viewer connects, the call evaluates
`renderImage`, and its send can follow at once. -/
theorem rendezvous_witness :
    Event.pageServe (some 0) ∈ [Event.paintCall "t" [[0]], Event.pageServe (some 0), Event.render 0]
    ∧ step sampleEnv
        { paints := [{ title := "t", pixels := [[0]], pc := .atQuit },
                     { title := "u", pixels := [[1]], pc := .atWait }],
          run := .atSelect, plots := Plots.empty, aborted := none }
        (.pageServe none) = none
    ∧ (∃ s1, step sampleEnv
        { paints := [{ title := "t", pixels := [[0]], pc := .atQuit },
                     { title := "u", pixels := [[1]], pc := .atWait }],
          run := .atSelect, plots := Plots.empty, aborted := none }
        (.pageServe (some 1)) = some s1)
    ∧ (Event.handoff 1 ∈ [Event.connect, Event.render 1] ∨
        ∃ rest s3, (rest = [Event.render 1, Event.handoff 1] ∨ rest = [Event.handoff 1])
          ∧ exec sampleEnv
              { paints := [{ title := "t", pixels := [[0]], pc := .atQuit },
                           { title := "u", pixels := [[1]], pc := .atSend frame1x1 }],
                run := .atSelect,
                plots := { buf := [], viewers := [{ taken := [], logged := 0 }] },
                aborted := none }
              rest = some s3
          ∧ pcAt s3.paints 1 = some .atQuit) := by
  have h := rendezvous sampleEnv
    [.paintCall "t" [[0]], .pageServe (some 0), .render 0, .handoff 0, .paintCall "u" [[1]]]
    { paints := [{ title := "t", pixels := [[0]], pc := .atQuit },
                 { title := "u", pixels := [[1]], pc := .atWait }],
      run := .atSelect, plots := Plots.empty, aborted := none } rfl
  have h2 := h.2 1 { title := "u", pixels := [[1]], pc := .atWait } rfl rfl
  exact ⟨h.1 [.paintCall "t" [[0]], .pageServe (some 0), .render 0] [.paintCall "u" [[1]]] 0 rfl,
    h2.1, h2.2.1 rfl,
    h2.2.2 frame1x1 rfl [.connect, .render 1]
      { paints := [{ title := "t", pixels := [[0]], pc := .atQuit },
                   { title := "u", pixels := [[1]], pc := .atSend frame1x1 }],
        run := .atSelect,
        plots := { buf := [], viewers := [{ taken := [], logged := 0 }] },
        aborted := none } rfl rfl rfl⟩

/-- C1 (counterexample to the claim as stated): `srv.run` serves one call, handles
the done signal and returns; a second call of `Paint` then blocks in
`<-srv.wait`, a page request is served and its send is received by that call,
and yet in no continuation is the call's frame handed to `srv.run`. -/
theorem rendezvous_fails_after_done :
    ∃ s0 s1 : State,
      exec sampleEnv init
        [.connect, .paintCall "t" [[0]], .pageServe (some 0), .render 0, .handoff 0, .done,
         .plotsSync 0 true, .wake, .quit 0, .paintCall "u" [[1]]] = some s0
      ∧ pcAt s0.paints 1 = some .atWait
      ∧ step sampleEnv s0 (.pageServe (some 1)) = some s1
      ∧ ∀ tr s', exec sampleEnv s1 tr = some s' → Event.handoff 1 ∉ tr := by
  refine ⟨{ paints := [{ title := "t", pixels := [[0]], pc := .returned },
                       { title := "u", pixels := [[1]], pc := .atWait }],
            run := .returned,
            plots := { buf := [], viewers := [{ taken := [{ Plot := "final" }], logged := 0 }] },
            aborted := none },
          { paints := [{ title := "t", pixels := [[0]], pc := .returned },
                       { title := "u", pixels := [[1]], pc := .rendering }],
            run := .returned,
            plots := { buf := [], viewers := [{ taken := [{ Plot := "final" }], logged := 0 }] },
            aborted := none }, rfl, rfl, rfl, ?_⟩
  intro tr s' he
  exact no_handoff_after_return sampleEnv tr _ s' 1 rfl he

/-- C6: in every execution from the start, the return of a call of `Paint`
(its receive on `srv.quit`) comes after the receive by `srv.run` of that
call's frame from `srv.datac`. -/
theorem paint_returns_after_handoff (E : Env) (tr : List Event) (s : State)
    (h : exec E init tr = some s) (pre post : List Event) (i : Nat)
    (htr : tr = pre ++ Event.quit i :: post) : Event.handoff i ∈ pre := by
  subst htr
  obtain ⟨s1, s2, h1, h2, _⟩ := exec_split E init s pre post _ h
  have hinv := Hist_exec E pre init s1 [] Hist_init h1
  obtain ⟨_, hq⟩ := step_quit_inv E s1 s2 i h2
  simpa using (hinv i _ hq).2 (Or.inl rfl)

/-- Witness for `paint_returns_after_handoff`: a whole session with one call
and one viewer. -/
theorem paint_returns_after_handoff_witness :
    Event.handoff 0 ∈
      [Event.connect, .paintCall "t" [[0]], .pageServe (some 0), .render 0, .handoff 0, .done,
       .plotsSync 0 true, .wake] :=
  paint_returns_after_handoff sampleEnv
    [.connect, .paintCall "t" [[0]], .pageServe (some 0), .render 0, .handoff 0, .done,
     .plotsSync 0 true, .wake, .quit 0]
    { paints := [{ title := "t", pixels := [[0]], pc := .returned }],
      run := .returned,
      plots := { buf := [], viewers := [{ taken := [{ Plot := "final" }], logged := 0 }] },
      aborted := none }
    rfl
    [.connect, .paintCall "t" [[0]], .pageServe (some 0), .render 0, .handoff 0, .done,
     .plotsSync 0 true, .wake] [] 0 rfl

/-- C3 (as amended): `Paint` has no result, and a call made after `srv.run`
has handled the done signal and returned never returns.  Whatever events
follow, the call is not past its send on `srv.datac`: it stays blocked in
`<-srv.wait` for as long as no page request's send is received by it, and after
that it can only evaluate `renderImage` and block in `srv.datac <- ...`, which
nobody receives. -/
theorem paint_after_return_blocks (E : Env) (s : State) (title : String) (pixels : Pixels)
    (tr : List Event) (s' : State) (hrun : s.run = .returned)
    (h : exec E s (Event.paintCall title pixels :: tr) = some s') :
    ∃ pc, pcAt s'.paints s.paints.length = some pc
      ∧ pc ≠ .returned ∧ pc ≠ .atQuit
      ∧ (Event.pageServe (some s.paints.length) ∉ tr → pc = .atWait)
      ∧ Event.handoff s.paints.length ∉ tr := by
  simp only [exec] at h
  cases hs : step E s (.paintCall title pixels) with
  | none => simp [hs] at h
  | some s1 =>
    simp only [hs, Option.some_bind] at h
    obtain ⟨hr1, hw1⟩ := paintCall_step E s s1 title pixels hs
    rw [hrun] at hr1
    obtain ⟨_, x', hx', hq, hret⟩ :=
      blocked_after_return E tr s1 s' s.paints.length .atWait hr1 hw1 (by simp) (by simp) h
    refine ⟨x', hx', hret, hq, ?_, no_handoff_after_return E tr s1 s' _ hr1 h⟩
    intro hno
    have := stays_waiting E tr s1 s' s.paints.length hw1 hno h
    rw [hx'] at this
    simpa using this

/-- Witness for `paint_after_return_blocks`: after a whole session, a second
call is made, is handed a page request and evaluates `renderImage`. -/
theorem paint_after_return_blocks_witness :
    ∃ pc, pcAt [{ title := "t", pixels := [[0]], pc := .returned },
                { title := "u", pixels := [[1]], pc := .atSend frame1x1 }] 1 = some pc
      ∧ pc ≠ .returned ∧ pc ≠ .atQuit
      ∧ (Event.pageServe (some 1) ∉ [Event.pageServe (some 1), Event.render 1] → pc = .atWait)
      ∧ Event.handoff 1 ∉ [Event.pageServe (some 1), Event.render 1] :=
  paint_after_return_blocks sampleEnv
    { paints := [{ title := "t", pixels := [[0]], pc := .returned }],
      run := .returned,
      plots := { buf := [], viewers := [{ taken := [{ Plot := "final" }], logged := 0 }] },
      aborted := none }
    "u" [[1]] [.pageServe (some 1), .render 1]
    { paints := [{ title := "t", pixels := [[0]], pc := .returned },
                 { title := "u", pixels := [[1]], pc := .atSend frame1x1 }],
      run := .returned,
      plots := { buf := [], viewers := [{ taken := [{ Plot := "final" }], logged := 0 }] },
      aborted := none }
    rfl rfl

/-- C3 (counterexample to the claim as stated): after a session in which
`srv.run` has handled the done signal and returned, a call of `Paint` is blocked
in `<-srv.wait` when no page request follows, and in no continuation at all
does it return. -/
theorem paint_after_finish_never_returns :
    ∃ s0 : State,
      exec sampleEnv init
        [.connect, .paintCall "t" [[0]], .pageServe (some 0), .render 0, .handoff 0, .done,
         .plotsSync 0 true, .wake, .quit 0] = some s0
      ∧ s0.run = .returned
      ∧ (exec sampleEnv s0 [.paintCall "u" [[1]]]).map (fun s => pcAt s.paints 1)
          = some (some .atWait)
      ∧ ∀ tr s', exec sampleEnv s0 (Event.paintCall "u" [[1]] :: tr) = some s' →
          pcAt s'.paints 1 ≠ some .returned := by
  refine ⟨{ paints := [{ title := "t", pixels := [[0]], pc := .returned }],
            run := .returned,
            plots := { buf := [], viewers := [{ taken := [{ Plot := "final" }], logged := 0 }] },
            aborted := none }, rfl, rfl, rfl, ?_⟩
  intro tr s' he
  have hs : exec sampleEnv
      { paints := [{ title := "t", pixels := [[0]], pc := .returned },
                   { title := "u", pixels := [[1]], pc := .atWait }],
        run := .returned,
        plots := { buf := [], viewers := [{ taken := [{ Plot := "final" }], logged := 0 }] },
        aborted := none } tr = some s' := he
  obtain ⟨_, x', hx', _, hret⟩ :=
    blocked_after_return sampleEnv tr
      { paints := [{ title := "t", pixels := [[0]], pc := .returned },
                   { title := "u", pixels := [[1]], pc := .atWait }],
        run := .returned,
        plots := { buf := [], viewers := [{ taken := [{ Plot := "final" }], logged := 0 }] },
        aborted := none }
      s' 1 .atWait rfl rfl (by simp) (by simp) hs
  rw [hx']
  intro hc
  exact hret (Option.some.inj hc)

/-- C5 (as amended): the gate is not sticky.  A page request served while no
call of `Paint` is blocked in `<-srv.wait` takes `default` and leaves the state
as it was; a call blocked in `<-srv.wait` stays there through every execution
in which no page request's send is received by it; and a page request whose
send is received moves that one call past its wait and no other. -/
theorem gate_not_sticky (E : Env) (s : State) :
    (∀ s', step E s (.pageServe none) = some s' → s' = s ∧ someoneWaits s.paints = false)
    ∧ (∀ i tr s', pcAt s.paints i = some .atWait → Event.pageServe (some i) ∉ tr →
        exec E s tr = some s' → pcAt s'.paints i = some .atWait)
    ∧ (∀ i s', step E s (.pageServe (some i)) = some s' →
        pcAt s.paints i = some .atWait ∧ pcAt s'.paints i = some .rendering
          ∧ ∀ j, j ≠ i → pcAt s'.paints j = pcAt s.paints j) := by
  refine ⟨?_, ?_, ?_⟩
  · intro s' hs
    have hab := step_not_aborted E s s' _ hs
    simp only [step, hab, Option.isSome_none, Bool.false_eq_true, if_false, plotHandle] at hs
    split at hs
    · simp at hs
    · rename_i hw
      simp only [Option.some.injEq] at hs
      exact ⟨hs.symm, by simpa using hw⟩
  · intro i tr s' hw hno he
    exact stays_waiting E tr s s' i hw hno he
  · intro i s' hs
    have hab := step_not_aborted E s s' _ hs
    simp only [step, hab, Option.isSome_none, Bool.false_eq_true, if_false, plotHandle] at hs
    split at hs
    · rename_i hw
      simp only [Option.some.injEq] at hs
      subst hs
      refine ⟨hw, by simp [pcAt_setPc, hw], ?_⟩
      intro j hj
      simp [pcAt_setPc, hj]
    · simp at hs

/-- Witness for `gate_not_sticky`: a page request served with nobody waiting, a
call that starts afterwards and waits, and the page request that releases it. -/
theorem gate_not_sticky_witness :
    (init = init ∧ someoneWaits init.paints = false)
    ∧ pcAt [{ title := "t", pixels := [[0]], pc := .atWait }] 0 = some .atWait
    ∧ (pcAt [{ title := "t", pixels := [[0]], pc := .atWait }] 0 = some .atWait
        ∧ pcAt [{ title := "t", pixels := [[0]], pc := .rendering }] 0 = some .rendering
        ∧ ∀ j, j ≠ 0 → pcAt [{ title := "t", pixels := [[0]], pc := .rendering }] j
            = pcAt [{ title := "t", pixels := [[0]], pc := .atWait }] j) :=
  ⟨(gate_not_sticky sampleEnv init).1 init rfl,
   (gate_not_sticky sampleEnv
      { paints := [{ title := "t", pixels := [[0]], pc := .atWait }], run := .atSelect,
        plots := Plots.empty, aborted := none }).2.1 0 [.connect, .done]
      { paints := [{ title := "t", pixels := [[0]], pc := .atWait }], run := .atPlots,
        plots := { buf := [], viewers := [{ taken := [], logged := 0 }] }, aborted := none }
      rfl (by decide) rfl,
   (gate_not_sticky sampleEnv
      { paints := [{ title := "t", pixels := [[0]], pc := .atWait }], run := .atSelect,
        plots := Plots.empty, aborted := none }).2.2 0
      { paints := [{ title := "t", pixels := [[0]], pc := .rendering }], run := .atSelect,
        plots := Plots.empty, aborted := none } rfl⟩

/-- C5 (counterexample to the claim as stated): a page request is served before
any call of `Paint`; the call that starts afterwards is blocked in
`<-srv.wait` and stays there in every continuation without a further page
request. -/
theorem gate_forgets_earlier_page_request :
    ∃ s0 : State,
      exec sampleEnv init [.pageServe none, .paintCall "t" [[0]]] = some s0
      ∧ pcAt s0.paints 0 = some .atWait
      ∧ ∀ tr s', (∀ e ∈ tr, Event.isPage e = false) → exec sampleEnv s0 tr = some s' →
          pcAt s'.paints 0 = some .atWait := by
  refine ⟨{ paints := [{ title := "t", pixels := [[0]], pc := .atWait }], run := .atSelect,
            plots := Plots.empty, aborted := none }, rfl, rfl, ?_⟩
  intro tr s' hno he
  refine stays_waiting sampleEnv tr
    { paints := [{ title := "t", pixels := [[0]], pc := .atWait }], run := .atSelect,
      plots := Plots.empty, aborted := none } s' 0 rfl ?_ he
  intro hmem
  have := hno _ hmem
  simp [Event.isPage] at this

/-- C2 (the code at the failing input): one frame is accepted by `srv.run`
from `srv.datac` (`N = 1`), then the done signal; the connected viewer has
received the final frame only, one frame and not `N + 1 = 2`: the frame taken
from `srv.datac` is dropped. -/
theorem run_drops_frames (E : Env) :
    (exec E init
        [.connect, .paintCall "a" [[0]], .pageServe (some 0), .render 0, .handoff 0, .done,
         .plotsSync 0 true]).map (fun s => (s.run, s.plots.buf, s.plots.viewers))
      = some (.sleeping, [], [{ taken := [E.final], logged := 0 }]) := by
  rfl

/-! ## Theorems, part 3: the channel `srv.plots` and its viewers -/

theorem viewerAt_snoc (vs : List Viewer) (vw : Viewer) (j : Nat) :
    viewerAt (vs ++ [vw]) j =
      if j < vs.length then viewerAt vs j else if j = vs.length then some vw else none := by
  induction vs generalizing j with
  | nil => cases j <;> simp [viewerAt]
  | cons d ds ih => cases j <;> simp [viewerAt, ih]

theorem viewerAt_none_of_ge (vs : List Viewer) (j : Nat) (h : vs.length ≤ j) :
    viewerAt vs j = none := by
  induction vs generalizing j with
  | nil => cases j <;> rfl
  | cons d ds ih =>
    cases j with
    | zero => simp at h
    | succ j => simp only [viewerAt]; exact ih j (by simpa using h)

theorem totalTaken_snoc (vs : List Viewer) (vw : Viewer) :
    totalTaken (vs ++ [vw]) = totalTaken vs + vw.taken.length := by
  induction vs with
  | nil => simp [totalTaken]
  | cons d ds ih => simp [totalTaken, ih]; omega

theorem deliver_viewerAt (vs vs' : List Viewer) (v : Nat) (f : wplot) (ok : Bool)
    (h : deliver vs v f ok = some vs') (j : Nat) :
    viewerAt vs' j =
      if j = v then (viewerAt vs j).map (fun vw => dataHandlerIter vw f ok)
      else viewerAt vs j := by
  induction vs generalizing v vs' j with
  | nil => cases v <;> simp [deliver] at h
  | cons d ds ih =>
    cases v with
    | zero =>
      simp only [deliver, Option.some.injEq] at h
      subst h
      cases j <;> simp [viewerAt]
    | succ v =>
      simp only [deliver, Option.map_eq_some'] at h
      obtain ⟨ws, hws, hvs'⟩ := h
      subst hvs'
      cases j with
      | zero => simp [viewerAt]
      | succ j => simp [viewerAt, ih ws v hws j]

theorem deliver_totalTaken (vs vs' : List Viewer) (v : Nat) (f : wplot) (ok : Bool)
    (h : deliver vs v f ok = some vs') : totalTaken vs' = totalTaken vs + 1 := by
  induction vs generalizing v vs' with
  | nil => cases v <;> simp [deliver] at h
  | cons d ds ih =>
    cases v with
    | zero =>
      simp only [deliver, Option.some.injEq] at h
      subst h
      simp [totalTaken, dataHandlerIter]
      omega
    | succ v =>
      simp only [deliver, Option.map_eq_some'] at h
      obtain ⟨ws, hws, hvs'⟩ := h
      subst hvs'
      simp only [totalTaken, ih ws v hws]
      omega

theorem pair_le_totalTaken (vs : List Viewer) (v v' : Nat) (a b : Viewer) (hne : v ≠ v')
    (ha : viewerAt vs v = some a) (hb : viewerAt vs v' = some b) :
    a.taken.length + b.taken.length ≤ totalTaken vs := by
  have single : ∀ (ws : List Viewer) (k : Nat) (c : Viewer), viewerAt ws k = some c →
      c.taken.length ≤ totalTaken ws := by
    intro ws
    induction ws with
    | nil => intro k c hc; cases k <;> simp [viewerAt] at hc
    | cons d ds ih =>
      intro k c hc
      cases k with
      | zero =>
        simp only [viewerAt, Option.some.injEq] at hc
        subst hc
        simp [totalTaken]
      | succ k =>
        simp only [viewerAt] at hc
        have := ih k c hc
        simp only [totalTaken]
        omega
  induction vs generalizing v v' with
  | nil => cases v <;> simp [viewerAt] at ha
  | cons d ds ih =>
    cases v with
    | zero =>
      cases v' with
      | zero => exact absurd rfl hne
      | succ v' =>
        simp only [viewerAt, Option.some.injEq] at ha hb
        subst ha
        have := single ds v' b hb
        simp only [totalTaken]
        omega
    | succ v =>
      cases v' with
      | zero =>
        simp only [viewerAt, Option.some.injEq] at ha hb
        subst hb
        have := single ds v a ha
        simp only [totalTaken]
        omega
      | succ v' =>
        simp only [viewerAt] at ha hb
        have := ih v v' (fun hc => hne (by rw [hc])) ha hb
        simp only [totalTaken]
        omega

theorem Plots.placed_cons (e : PlotsEvent) (es : List PlotsEvent) :
    Plots.placed (e :: es) = Plots.placed [e] ++ Plots.placed es := by
  cases e <;> simp [Plots.placed]

/-- One event of `srv.plots`: a viewer's frames grow by at most the one frame it
takes, and what it takes comes from the channel or from the send it meets. -/
theorem Plots.step_taken (cap : Nat) (P P1 : Plots) (e : PlotsEvent)
    (h : Plots.step cap P e = some P1) (v : Nat) :
    ∃ d, (takenBy P1.viewers v).getD [] = (takenBy P.viewers v).getD [] ++ d
      ∧ (d ++ P1.buf).Sublist (P.buf ++ Plots.placed [e]) := by
  cases e with
  | connect =>
    simp only [Plots.step, Option.some.injEq] at h
    subst h
    refine ⟨[], ?_, by simp [Plots.placed]⟩
    simp only [takenBy, viewerAt_snoc, List.append_nil]
    split
    · rfl
    · rename_i hlt
      rw [viewerAt_none_of_ge _ _ (by omega)]
      split <;> rfl
  | send f =>
    simp only [Plots.step] at h
    split at h
    · simp only [Option.some.injEq] at h
      subst h
      exact ⟨[], by simp, by simp [Plots.placed]⟩
    · simp at h
  | sync f v0 ok =>
    simp only [Plots.step] at h
    cases hb : P.buf with
    | cons g rest => simp [hb] at h
    | nil =>
      simp only [hb, Option.map_eq_some'] at h
      obtain ⟨vs, hvs, hP1⟩ := h
      subst hP1
      simp only [takenBy, deliver_viewerAt _ _ _ _ _ hvs v, hb]
      by_cases hv : v = v0
      · subst hv
        cases hw : viewerAt P.viewers v with
        | none => exact ⟨[], by simp, by simp [Plots.placed]⟩
        | some vw =>
          exact ⟨[f], by simp [dataHandlerIter], by simp [Plots.placed]⟩
      · exact ⟨[], by simp [hv], by simp [Plots.placed]⟩
  | recv v0 ok =>
    simp only [Plots.step] at h
    cases hb : P.buf with
    | nil => simp [hb] at h
    | cons g rest =>
      simp only [hb, Option.map_eq_some'] at h
      obtain ⟨vs, hvs, hP1⟩ := h
      subst hP1
      simp only [takenBy, deliver_viewerAt _ _ _ _ _ hvs v]
      by_cases hv : v = v0
      · subst hv
        cases hw : viewerAt P.viewers v with
        | none => exact ⟨[], by simp, by simp [Plots.placed]⟩
        | some vw => exact ⟨[g], by simp [dataHandlerIter], by simp [Plots.placed]⟩
      · exact ⟨[], by simp [hv], by simp [Plots.placed]⟩

theorem Plots.step_count (cap : Nat) (P P1 : Plots) (e : PlotsEvent)
    (h : Plots.step cap P e = some P1) :
    totalTaken P1.viewers + P1.buf.length
      = totalTaken P.viewers + P.buf.length + (Plots.placed [e]).length := by
  cases e with
  | connect =>
    simp only [Plots.step, Option.some.injEq] at h
    subst h
    simp [totalTaken_snoc, Plots.placed]
  | send f =>
    simp only [Plots.step] at h
    split at h
    · simp only [Option.some.injEq] at h
      subst h
      simp [Plots.placed]
      omega
    · simp at h
  | sync f v0 ok =>
    simp only [Plots.step] at h
    cases hb : P.buf with
    | cons g rest => simp [hb] at h
    | nil =>
      simp only [hb, Option.map_eq_some'] at h
      obtain ⟨vs, hvs, hP1⟩ := h
      subst hP1
      simp [deliver_totalTaken _ _ _ _ _ hvs, hb, Plots.placed]
  | recv v0 ok =>
    simp only [Plots.step] at h
    cases hb : P.buf with
    | nil => simp [hb] at h
    | cons g rest =>
      simp only [hb, Option.map_eq_some'] at h
      obtain ⟨vs, hvs, hP1⟩ := h
      subst hP1
      simp [deliver_totalTaken _ _ _ _ _ hvs, Plots.placed]
      omega

theorem Plots.exec_taken (cap : Nat) (tr : List PlotsEvent) :
    ∀ (P P' : Plots), Plots.exec cap P tr = some P' → ∀ v : Nat,
      ∃ extra, (takenBy P'.viewers v).getD [] = (takenBy P.viewers v).getD [] ++ extra
        ∧ (extra ++ P'.buf).Sublist (P.buf ++ Plots.placed tr) := by
  induction tr with
  | nil =>
    intro P P' h v
    simp only [Plots.exec, Option.some.injEq] at h
    subst h
    exact ⟨[], by simp, by simp [Plots.placed]⟩
  | cons e es ih =>
    intro P P' h v
    simp only [Plots.exec] at h
    cases hs : Plots.step cap P e with
    | none => simp [hs] at h
    | some P1 =>
      simp only [hs, Option.some_bind] at h
      obtain ⟨d, hd, hsub1⟩ := Plots.step_taken cap P P1 e hs v
      obtain ⟨extra, hx, hsub2⟩ := ih P1 P' h v
      refine ⟨d ++ extra, by rw [hx, hd, List.append_assoc], ?_⟩
      rw [Plots.placed_cons, ← List.append_assoc, List.append_assoc d]
      have h1 : (d ++ (extra ++ P'.buf)).Sublist (d ++ (P1.buf ++ Plots.placed es)) :=
        List.Sublist.append (List.Sublist.refl d) hsub2
      have h2 : (d ++ (P1.buf ++ Plots.placed es)).Sublist
          ((P.buf ++ Plots.placed [e]) ++ Plots.placed es) := by
        rw [← List.append_assoc]
        exact List.Sublist.append hsub1 (List.Sublist.refl _)
      exact h1.trans h2

theorem Plots.exec_count (cap : Nat) (tr : List PlotsEvent) :
    ∀ (P P' : Plots), Plots.exec cap P tr = some P' →
      totalTaken P'.viewers + P'.buf.length
        = totalTaken P.viewers + P.buf.length + (Plots.placed tr).length := by
  induction tr with
  | nil =>
    intro P P' h
    simp only [Plots.exec, Option.some.injEq] at h
    subst h
    simp [Plots.placed]
  | cons e es ih =>
    intro P P' h
    simp only [Plots.exec] at h
    cases hs : Plots.step cap P e with
    | none => simp [hs] at h
    | some P1 =>
      simp only [hs, Option.some_bind] at h
      have h1 := Plots.step_count cap P P1 e hs
      have h2 := ih P1 P' h
      rw [Plots.placed_cons, List.length_append]
      omega

/-- C7 (as amended): a value sent on `srv.plots` is received by one viewer
only.  In every execution of the channel and its `dataHandler` loops from the
start, the frames received by all viewers together and the frames still
buffered number exactly the frames sent, so what one viewer takes no other
viewer gets: two viewers have together received at most as many frames as were
sent.  Each viewer has received a subsequence of the frames sent, in the order
they were sent. -/
theorem plots_frames_are_shared_out (cap : Nat) (tr : List PlotsEvent) (P : Plots)
    (h : Plots.exec cap Plots.empty tr = some P) :
    totalTaken P.viewers + P.buf.length = (Plots.placed tr).length
    ∧ (∀ v fs, takenBy P.viewers v = some fs → fs.Sublist (Plots.placed tr))
    ∧ (∀ v v' fs fs', v ≠ v' → takenBy P.viewers v = some fs → takenBy P.viewers v' = some fs' →
        fs.length + fs'.length ≤ (Plots.placed tr).length) := by
  have hcount := Plots.exec_count cap tr Plots.empty P h
  simp only [Plots.empty, totalTaken, List.length_nil, Nat.zero_add] at hcount
  refine ⟨hcount, ?_, ?_⟩
  · intro v fs hv
    obtain ⟨extra, hx, hsub⟩ := Plots.exec_taken cap tr Plots.empty P h v
    have h0 : (takenBy Plots.empty.viewers v).getD [] = [] := by
      simp [Plots.empty, takenBy, viewerAt]
    have hb : Plots.empty.buf = [] := rfl
    rw [hv, h0] at hx
    rw [hb, List.nil_append] at hsub
    simp only [Option.getD_some, List.nil_append] at hx
    subst hx
    exact (List.sublist_append_left fs P.buf).trans hsub
  · intro v v' fs fs' hne hv hv'
    simp only [takenBy, Option.map_eq_some'] at hv hv'
    obtain ⟨a, ha, hfa⟩ := hv
    obtain ⟨b, hb, hfb⟩ := hv'
    have := pair_le_totalTaken P.viewers v v' a b hne ha hb
    subst hfa hfb
    omega

/-- Witness for `plots_frames_are_shared_out`: two viewers, two frames sent,
one taken by each. -/
theorem plots_frames_are_shared_out_witness :
    (1 + 1 + 0) + 0 = ([{ Plot := "a" }, { Plot := "b" }] : List wplot).length
    ∧ (∀ v fs, takenBy [{ taken := [{ Plot := "b" }], logged := 0 },
                        { taken := [{ Plot := "a" }], logged := 0 }] v = some fs →
        fs.Sublist [{ Plot := "a" }, { Plot := "b" }])
    ∧ (∀ v v' fs fs', v ≠ v' →
        takenBy [{ taken := [{ Plot := "b" }], logged := 0 },
                 { taken := [{ Plot := "a" }], logged := 0 }] v = some fs →
        takenBy [{ taken := [{ Plot := "b" }], logged := 0 },
                 { taken := [{ Plot := "a" }], logged := 0 }] v' = some fs' →
        fs.length + fs'.length ≤ ([{ Plot := "a" }, { Plot := "b" }] : List wplot).length) :=
  plots_frames_are_shared_out 0
    [.connect, .connect, .sync { Plot := "a" } 1 true, .sync { Plot := "b" } 0 true]
    { buf := [], viewers := [{ taken := [{ Plot := "b" }], logged := 0 },
                             { taken := [{ Plot := "a" }], logged := 0 }] }
    rfl

/-- C7 (counterexample to the claim as stated): two viewers are connected and
one frame is sent on `srv.plots`; the first viewer takes it, the second has
received nothing, the channel is empty, and unless a frame is sent again the
second viewer never receives anything. -/
theorem second_viewer_misses_frame :
    ∃ P : Plots,
      Plots.exec 0 Plots.empty [.connect, .connect, .sync { Plot := "a" } 0 true] = some P
      ∧ takenBy P.viewers 0 = some [{ Plot := "a" }]
      ∧ takenBy P.viewers 1 = some []
      ∧ P.buf = []
      ∧ ∀ tr P', Plots.placed tr = [] → Plots.exec 0 P tr = some P' →
          ∀ fs, takenBy P'.viewers 1 = some fs → fs = [] := by
  refine ⟨{ buf := [], viewers := [{ taken := [{ Plot := "a" }], logged := 0 },
                                   { taken := [], logged := 0 }] }, rfl, rfl, rfl, rfl, ?_⟩
  intro tr P' hpl he fs hfs
  obtain ⟨extra, hx, hsub⟩ := Plots.exec_taken 0 tr
    { buf := [], viewers := [{ taken := [{ Plot := "a" }], logged := 0 },
                             { taken := [], logged := 0 }] } P' he 1
  rw [hpl] at hsub
  simp only [List.append_nil, List.sublist_nil, List.append_eq_nil] at hsub
  rw [hfs, hsub.1] at hx
  simpa [takenBy, viewerAt] using hx

/-- C8 (as amended): when sending a frame to a viewer fails, the failure is
logged and nothing else happens: the loop of `dataHandler` goes on.  Run on any
sequence of frames yielded by `srv.plots`, whatever the outcomes of the sends,
the handler takes every one of them, and it logs one line per failed send. -/
theorem dataHandler_logs_and_goes_on (vw : Viewer) (frames : List (wplot × Bool)) :
    (dataHandler vw frames).taken = vw.taken ++ frames.map Prod.fst
    ∧ (dataHandler vw frames).logged
        = vw.logged + (frames.filter (fun p => !p.2)).length := by
  induction frames generalizing vw with
  | nil => simp [dataHandler]
  | cons p rest ih =>
    obtain ⟨data, sendOk⟩ := p
    obtain ⟨h1, h2⟩ := ih (dataHandlerIter vw data sendOk)
    simp only [dataHandler, h1, h2]
    cases sendOk
    · simp [dataHandlerIter]
      omega
    · simp [dataHandlerIter]

/-- C8 (counterexample to the claim as stated): the send of the first frame
fails; the handler logs it and then takes the second frame all the same, both
as a loop and as a viewer on the channel. -/
theorem dataHandler_survives_failed_send :
    dataHandler { taken := [], logged := 0 } [({ Plot := "a" }, false), ({ Plot := "b" }, true)]
      = { taken := [{ Plot := "a" }, { Plot := "b" }], logged := 1 }
    ∧ Plots.exec 0 Plots.empty
        [.connect, .sync { Plot := "a" } 0 false, .sync { Plot := "b" } 0 true]
      = some { buf := [],
               viewers := [{ taken := [{ Plot := "a" }, { Plot := "b" }], logged := 1 }] } := by
  exact ⟨rfl, rfl⟩

end Imgsrv
